import Mathlib

/-!
Shallow embedding of the marketing-CRM dashboard's attribution / conversion /
filter / aggregation pipeline (src/index.tsx and src/unnamed/part_000), with
theorems settling the frozen claims about it.

Timestamps are modelled as `Int` (JS epoch milliseconds).  JS `Math.random`
draws are modelled as a stream `Nat → ℚ` of values (valid draws lie in
`[0, 1)`); `rand(min, max)` becomes `⌊r * (max - min + 1)⌋ + min` over `ℚ`.
An invalid JS `Date` (`NaN` time value) is modelled as `none : Option Int`;
every JS relational comparison against `NaN` is `false`, so a comparison
against a `none` bound is `false`.
-/

namespace CRM

/-- A user record, as produced by the upstream data source
(src/index.tsx lines 20-29). -/
structure User where
  user_id : String
  gender : String
  age : Nat
  send_country : String
  receive_country : String
  customer_type : String
  device_info : String
  platform_type : String
deriving DecidableEq, Repr

/-- A raw event (src/index.tsx lines 35-40). -/
structure Event where
  event_id : String
  user_id : String
  timestamp : Int
  event_name : String
deriving DecidableEq, Repr

/-- An attributed click: all user fields merged with a derived channel and the
qualifying click's timestamp (src/index.tsx lines 54-58). -/
structure AttributedClick where
  user_id : String
  gender : String
  age : Nat
  send_country : String
  receive_country : String
  customer_type : String
  device_info : String
  platform_type : String
  channel : String
  timestamp : Int
deriving DecidableEq, Repr

/-- A simulated transaction (src/index.tsx lines 68-73). -/
structure Transaction where
  user_id : String
  channel : String
  trx_volume : Int
  timestamp : Int
deriving DecidableEq, Repr

/-- JS `String.prototype.includes`: the pattern occurs as a contiguous
substring. -/
def includesSub (pat : List Char) : List Char → Bool
  | [] => pat.isEmpty
  | c :: rest => pat.isPrefixOf (c :: rest) || includesSub pat rest

/-- JS `e.event_name.includes('_clicked')` (src/index.tsx line 45). -/
def isClickEvent (e : Event) : Bool :=
  includesSub "_clicked".toList e.event_name.toList

/-- JS `e.event_name.includes('_received')` (src/index.tsx line 77). -/
def isReceivedEvent (e : Event) : Bool :=
  includesSub "_received".toList e.event_name.toList

/-- `channel.charAt(0).toUpperCase() + channel.slice(1)`
(src/index.tsx line 56). -/
def capitalize (s : String) : String :=
  match s.data with
  | [] => s
  | c :: cs => String.mk (c.toUpper :: cs)

/-- `event.event_name.replace('_clicked', '')` then capitalize
(src/index.tsx lines 51 and 56). -/
def deriveChannel (name : String) : String :=
  capitalize (name.replace "_clicked" "")

/-- `users.find(u => u.user_id === event.user_id)` (src/index.tsx line 52). -/
def findUser (users : List User) (uid : String) : Option User :=
  users.find? (fun u => u.user_id == uid)

/-- The attributed click built from a resolved user and a click event
(src/index.tsx lines 54-58). -/
def mkClick (u : User) (e : Event) : AttributedClick :=
  { user_id := u.user_id
    gender := u.gender
    age := u.age
    send_country := u.send_country
    receive_country := u.receive_country
    customer_type := u.customer_type
    device_info := u.device_info
    platform_type := u.platform_type
    channel := deriveChannel e.event_name
    timestamp := e.timestamp }

/-- The insertion-ordered map `attributedClicks` is an association list; JS
`Map.set` on a fresh key appends at the end. -/
abbrev ClickMap := List (String × AttributedClick)

/-- `attributedClicks.has(event.user_id)` (src/index.tsx line 50). -/
def hasKey (m : ClickMap) (k : String) : Bool :=
  m.any (fun p => p.1 == k)

/-- `attributedClicks.get(k)`, as an insertion-ordered association-list
lookup. -/
def lookupClick (m : ClickMap) (k : String) : Option AttributedClick :=
  (m.find? (fun p => p.1 == k)).map Prod.snd

/-- One step of the attribution walk (src/index.tsx lines 49-61): if the
user is not yet attributed and resolves to a user record, insert the
attributed click; otherwise leave the map unchanged. -/
def attributeStep (users : List User) (m : ClickMap) (e : Event) : ClickMap :=
  if hasKey m e.user_id then m
  else
    match findUser users e.user_id with
    | some u => m ++ [(e.user_id, mkClick u e)]
    | none => m

/-- `events.filter(e => e.event_name.includes('_clicked')).sort((a, b) =>
a.timestamp - b.timestamp)` — JS `Array.prototype.sort` is stable, modelled
by `List.mergeSort` (src/index.tsx lines 44-46). -/
def sortedClickEvents (events : List Event) : List Event :=
  (events.filter isClickEvent).mergeSort (fun a b => a.timestamp ≤ b.timestamp)

/-- First-touch attribution (src/index.tsx lines 44-61), returning the map
`attributedClicks` in insertion order. -/
def attributeMap (events : List Event) (users : List User) : ClickMap :=
  (sortedClickEvents events).foldl (attributeStep users) []

/-- `Array.from(attributedClicks.values())` (src/index.tsx line 79) — the
spec's `attribute(events, users)`; `attribute` is a Lean keyword, hence the
longer name. -/
def attributeClicks (events : List Event) (users : List User) : List AttributedClick :=
  (attributeMap events users).map Prod.snd

/-- `rand(min, max)` = `Math.floor(Math.random() * (max - min + 1)) + min`
(src/index.tsx line 13), with the `Math.random()` draw `q` passed in. -/
def rand (q : ℚ) (lo hi : Int) : Int :=
  ⌊q * ((hi : ℚ) - (lo : ℚ) + 1)⌋ + lo

/-- The conversion simulator (src/index.tsx lines 64-75): walk the attributed
clicks; with `Math.random() < 0.4` emit a transaction whose volume is
`rand(50, 800)` and whose timestamp is the click's plus
`rand(1000*60, 1000*60*60*24)`.  The `Math.random` source is the injected
stream `r`, consumed at increasing indices starting from `i`. -/
def simulateConversions (r : Nat → ℚ) : List AttributedClick → Nat → List Transaction
  | [], _ => []
  | c :: rest, i =>
    if r i < (2 : ℚ) / 5 then
      { user_id := c.user_id
        channel := c.channel
        trx_volume := rand (r (i + 1)) 50 800
        timestamp := c.timestamp + rand (r (i + 2)) (1000 * 60) (1000 * 60 * 60 * 24) }
        :: simulateConversions r rest (i + 3)
    else simulateConversions r rest (i + 1)

/-- `new Set(events.filter(_received).map(e => e.user_id)).size`
(src/index.tsx lines 77-78): the number of distinct user ids among
`_received` events. -/
def totalReached (events : List Event) : Nat :=
  ((events.filter isReceivedEvent).map Event.user_id).eraseDups.length

/-- The attribution-then-simulation pipeline run on one dataset with one
random source (src/index.tsx lines 44-82). -/
def runPipeline (events : List Event) (users : List User) (r : Nat → ℚ) :
    List AttributedClick × List Transaction :=
  let clicks := attributeClicks events users
  (clicks, simulateConversions r clicks 0)

/-- The filter state of src/index.tsx lines 194-200, after the date strings
have been parsed: `startDate`/`endDate` hold the epoch-millisecond value of
`new Date(filters.startDate)` resp. of `new Date(filters.endDate)` with
`setHours(23, 59, 59, 999)` applied; `none` is an invalid JS `Date` (an
unparseable string gives `NaN`, and `setHours` keeps `NaN`). -/
structure Filters where
  startDate : Option Int
  endDate : Option Int
  country : String
  device : String
  platform : String
deriving DecidableEq, Repr

/-- JS `date >= start` where `start` may be an invalid date: every relational
comparison against `NaN` is `false`. -/
def geNaN (d : Int) (bound : Option Int) : Bool :=
  match bound with
  | some b => b ≤ d
  | none => false

/-- JS `date <= end` where `end` may be an invalid date. -/
def leNaN (d : Int) (bound : Option Int) : Bool :=
  match bound with
  | some b => d ≤ b
  | none => false

/-- The click-filter predicate of src/index.tsx lines 226-231:
`date >= start && date <= end && countryMatch && deviceMatch &&
platformMatch`. -/
def clickPasses (f : Filters) (d : AttributedClick) : Bool :=
  let countryMatch := f.country == "all" || d.send_country == f.country
  let deviceMatch := f.device == "all" || d.device_info == f.device
  let platformMatch := f.platform == "all" || d.platform_type == f.platform
  geNaN d.timestamp f.startDate && leNaN d.timestamp f.endDate
    && countryMatch && deviceMatch && platformMatch

/-- `initialClickData.filter(...)` (src/index.tsx lines 226-232). -/
def filteredClickData (f : Filters) (clicks : List AttributedClick) :
    List AttributedClick :=
  clicks.filter (clickPasses f)

/-- `initialTransactions.filter(t => clickUserIds.has(t.user_id))` where
`clickUserIds = new Set(filteredClicks.map(c => c.user_id))`
(src/index.tsx lines 234-235). -/
def filteredTransactions (trans : List Transaction)
    (fc : List AttributedClick) : List Transaction :=
  trans.filter (fun t => (fc.map AttributedClick.user_id).contains t.user_id)

/-- The filter state of src/unnamed/part_000 lines 165-168. -/
structure FiltersB where
  sendCountry : String
  customerType : String
deriving DecidableEq, Repr

/-- `clickData.filter(...)` (src/unnamed/part_000 lines 175-180). -/
def filteredData (f : FiltersB) (clicks : List AttributedClick) :
    List AttributedClick :=
  clicks.filter (fun d =>
    (f.sendCountry == "all" || d.send_country == f.sendCountry)
      && (f.customerType == "all" || d.customer_type == f.customerType))

/-- src/unnamed/part_000 lines 182-186: early-out to `[]` when either list is
empty, else keep the transactions whose `user_id` is among the filtered
clicks' user ids. -/
def filteredTransactionsB (fc : List AttributedClick)
    (trans : List Transaction) : List Transaction :=
  if fc.length == 0 || trans.length == 0 then []
  else trans.filter (fun t => (fc.map AttributedClick.user_id).contains t.user_id)

/-- `totalClicks > 0 ? (totalConversions / totalClicks) * 100 : 0`
(src/index.tsx lines 241-244), over exact rationals. -/
def conversionRate (fc : List AttributedClick) (ft : List Transaction) : ℚ :=
  if 0 < fc.length then ((ft.length : ℚ) / (fc.length : ℚ)) * 100 else 0

/-- `totalReached > 0 ? (totalClicks / totalReached) * 100 : 0`
(src/unnamed/part_000 lines 219-220), over exact rationals. -/
def clickThroughRate (reached clicks : Nat) : ℚ :=
  if 0 < reached then ((clicks : ℚ) / (reached : ℚ)) * 100 else 0

/-- One step of the grouped-count reduce:
`acc[curr[key]] = (acc[curr[key]] || 0) + 1` over a JS object, whose keys
keep their first-insertion position. -/
def bump : List (String × Nat) → String → List (String × Nat)
  | [], k => [(k, 1)]
  | (k', v) :: rest, k =>
    if k' == k then (k', v + 1) :: rest else (k', v) :: bump rest k

/-- The grouped-count aggregation `countBy` / `reduceToCount`
(src/unnamed/part_000 lines 190-193, src/index.tsx lines 246-249), generic
over the dimension selector. -/
def countBy (f : AttributedClick → String) (data : List AttributedClick) :
    List (String × Nat) :=
  data.foldl (fun acc c => bump acc (f c)) []

/-- Ordered lookup in a grouped-count object. -/
def lookupCount (m : List (String × Nat)) (k : String) : Option Nat :=
  (m.find? (fun p => p.1 == k)).map Prod.snd

/-- The if/else-if chain of src/index.tsx lines 257-261: the bucket a click's
age is counted under. -/
def ageBucket (age : Nat) : String :=
  if age ≤ 25 then "18-25"
  else if age ≤ 35 then "26-35"
  else if age ≤ 45 then "36-45"
  else if age ≤ 55 then "46-55"
  else "56+"

/-- `{ '18-25': 0, '26-35': 0, '36-45': 0, '46-55': 0, '56+': 0 }`
(src/index.tsx line 255). -/
def ageGroupsInit : List (String × Nat) :=
  [("18-25", 0), ("26-35", 0), ("36-45", 0), ("46-55", 0), ("56+", 0)]

/-- `ageGroups[bucket]++`: increment an already-present key in place. -/
def bumpKey (m : List (String × Nat)) (k : String) : List (String × Nat) :=
  m.map (fun p => if p.1 == k then (p.1, p.2 + 1) else p)

/-- The age-group aggregation (src/index.tsx lines 255-262): start from the
five fixed buckets and bump the bucket of each filtered click's age. -/
def ageGroups (data : List AttributedClick) : List (String × Nat) :=
  data.foldl (fun m c => bumpKey m (ageBucket c.age)) ageGroupsInit

/-- The raw (string-valued) filter inputs held in React state
(src/index.tsx lines 194-200). -/
structure FilterInputs where
  startDate : String
  endDate : String
  country : String
  device : String
  platform : String
deriving DecidableEq, Repr

/-- The `name` of the input/select element a filter change comes from. -/
inductive FilterField
  | startDate
  | endDate
  | country
  | device
  | platform
deriving DecidableEq, Repr

/-- `setFilters(prev => ({ ...prev, [name]: value }))` (src/index.tsx
line 205). -/
def setField (f : FilterInputs) : FilterField → String → FilterInputs
  | .startDate, v => { f with startDate := v }
  | .endDate, v => { f with endDate := v }
  | .country, v => { f with country := v }
  | .device, v => { f with device := v }
  | .platform, v => { f with platform := v }

/-- The dashboard's interactive state: the broad filters and the optional
chart drill-down `(category, value)` (src/index.tsx lines 194-201). -/
structure AppState where
  filters : FilterInputs
  chartFilter : Option (String × String)
deriving DecidableEq, Repr

/-- `handleFilterChange` (src/index.tsx lines 203-207): update the named
filter field and reset the chart drill-down. -/
def handleFilterChange (s : AppState) (name : FilterField) (value : String) :
    AppState :=
  { filters := setField s.filters name value, chartFilter := none }

/-- `handleBarClick` (src/index.tsx lines 209-215): re-clicking the active
(category, value) clears the drill-down, any other click selects it. -/
def handleBarClick (s : AppState) (category value : String) : AppState :=
  if s.chartFilter == some (category, value) then { s with chartFilter := none }
  else { s with chartFilter := some (category, value) }

/-! ### Helper lemmas: the age-group aggregation -/

/-- Unfold an ordered-object lookup one entry. -/
theorem lookupCount_cons (x : String × Nat) (l : List (String × Nat)) (j : String) :
    lookupCount (x :: l) j = if x.1 = j then some x.2 else lookupCount l j := by
  simp only [lookupCount, List.find?_cons]
  by_cases h : x.1 = j
  · have hb : (x.1 == j) = true := by simp [h]
    simp [hb, h]
  · have hb : (x.1 == j) = false := by simp [h]
    simp [hb, h]

/-- Unfold `bumpKey` one entry. -/
theorem bumpKey_cons (p : String × Nat) (rest : List (String × Nat)) (k : String) :
    bumpKey (p :: rest) k
      = (if p.1 == k then (p.1, p.2 + 1) else p) :: bumpKey rest k := rfl

/-- `bumpKey` never changes the key sequence. -/
theorem bumpKey_fst (m : List (String × Nat)) (k : String) :
    (bumpKey m k).map Prod.fst = m.map Prod.fst := by
  unfold bumpKey
  rw [List.map_map]
  congr 1
  funext p
  by_cases h : p.1 = k <;> simp [h]

/-- Looking a key up after `bumpKey`: the first matching entry grew by one
exactly when it is the bumped key. -/
theorem lookupCount_bumpKey (k j : String) (m : List (String × Nat)) :
    lookupCount (bumpKey m k) j =
      (lookupCount m j).map (fun v => if j = k then v + 1 else v) := by
  induction m with
  | nil => rfl
  | cons p rest ih =>
    rw [bumpKey_cons, lookupCount_cons, lookupCount_cons]
    by_cases hpk : p.1 = k <;> by_cases hpj : p.1 = j
    · have hjk : j = k := by rw [← hpj, ← hpk]
      simp [hpk, hpj, hjk]
    · have hkj : ¬ k = j := fun h => hpj (by rw [hpk, h])
      simp [hpk, hpj, hkj, ih]
    · have hjk : ¬ j = k := fun h => hpk (by rw [hpj, h])
      simp [hpk, hpj, hjk]
    · simp [hpk, hpj, ih]

/-- Folding `bumpKey` over the data adds, per key, the number of clicks whose
age bucket is that key. -/
theorem ageGroups_fold_lookup (data : List AttributedClick) :
    ∀ (m : List (String × Nat)) (j : String),
      lookupCount (data.foldl (fun m c => bumpKey m (ageBucket c.age)) m) j =
        (lookupCount m j).map
          (fun v => v + (data.filter (fun c => ageBucket c.age == j)).length) := by
  induction data with
  | nil =>
    intro m j
    simp only [List.foldl_nil, List.filter_nil, List.length_nil]
    cases lookupCount m j <;> simp
  | cons c rest ih =>
    intro m j
    simp only [List.foldl_cons, List.filter_cons]
    rw [ih, lookupCount_bumpKey]
    by_cases h : ageBucket c.age = j
    · have hb : (ageBucket c.age == j) = true := by simp [h]
      have hj : j = ageBucket c.age := h.symm
      rw [hb]
      cases lookupCount m j <;> simp [hj]
      omega
    · have hb : (ageBucket c.age == j) = false := by simp [h]
      have hj : ¬ j = ageBucket c.age := fun hh => h hh.symm
      rw [hb]
      cases lookupCount m j <;> simp [hj]

/-- The key sequence of the age-group object is always the five fixed
buckets. -/
theorem ageGroups_fst (data : List AttributedClick) :
    (ageGroups data).map Prod.fst = ["18-25", "26-35", "36-45", "46-55", "56+"] := by
  unfold ageGroups
  suffices h : ∀ m : List (String × Nat),
      ((data.foldl (fun m c => bumpKey m (ageBucket c.age)) m).map Prod.fst)
        = m.map Prod.fst by
    rw [h ageGroupsInit]; rfl
  induction data with
  | nil => intro m; rfl
  | cons c rest ih =>
    intro m
    simp only [List.foldl_cons]
    rw [ih, bumpKey_fst]

/-- Every age lands in one of the five buckets. -/
theorem ageBucket_mem (age : Nat) :
    ageBucket age ∈ ["18-25", "26-35", "36-45", "46-55", "56+"] := by
  unfold ageBucket
  split
  · simp
  · split
    · simp
    · split
      · simp
      · split <;> simp

/-- Exactly one of the five fixed bucket names matches any age's bucket. -/
theorem ageBucket_filter_one (age : Nat) :
    ((ageGroupsInit.map Prod.fst).filter (fun k => ageBucket age == k)).length = 1 := by
  unfold ageBucket
  split
  · decide
  · split
    · decide
    · split
      · decide
      · split <;> decide

/-- `bumpKey` adds to the value sum the number of entries carrying the bumped
key. -/
theorem bumpKey_sum (m : List (String × Nat)) (k : String) :
    ((bumpKey m k).map Prod.snd).sum
      = (m.map Prod.snd).sum + (m.map Prod.fst).count k := by
  induction m with
  | nil => rfl
  | cons p rest ih =>
    rw [bumpKey_cons]
    simp only [List.map_cons, List.sum_cons, List.count_cons, ih]
    by_cases h : p.1 = k
    · have hb : (p.1 == k) = true := by simp [h]
      have hb' : (k == p.1) = true := by simp [h]
      simp [hb, hb']
      omega
    · have hb : (p.1 == k) = false := by simp [h]
      have hb' : (k == p.1) = false := by
        simp [show ¬ k = p.1 from fun hh => h hh.symm]
      simp [hb, hb']
      omega

/-- Each click adds exactly one to the total of the age-group counts. -/
theorem ageGroups_sum (data : List AttributedClick) :
    ((ageGroups data).map Prod.snd).sum = data.length := by
  unfold ageGroups
  suffices h : ∀ m : List (String × Nat),
      m.map Prod.fst = ["18-25", "26-35", "36-45", "46-55", "56+"] →
      ((data.foldl (fun m c => bumpKey m (ageBucket c.age)) m).map Prod.snd).sum
        = (m.map Prod.snd).sum + data.length by
    rw [h ageGroupsInit rfl]
    simp [ageGroupsInit]
  induction data with
  | nil => intro m _; simp
  | cons c rest ih =>
    intro m hm
    simp only [List.foldl_cons]
    rw [ih _ (by rw [bumpKey_fst, hm]), bumpKey_sum, hm]
    have hcount : (["18-25", "26-35", "36-45", "46-55", "56+"].count (ageBucket c.age)) = 1 := by
      unfold ageBucket
      split
      · decide
      · split
        · decide
        · split
          · decide
          · split <;> decide
    rw [hcount]
    simp [List.length_cons]
    omega

/-! ### Helper lemmas: grouped counts (`countBy`) -/

/-- Unfold `bump` one entry. -/
theorem bump_cons (p : String × Nat) (rest : List (String × Nat)) (k : String) :
    bump (p :: rest) k
      = if p.1 == k then (p.1, p.2 + 1) :: rest else p :: bump rest k := by
  simp only [bump]

/-- `bump` appends the key at the end when absent, else keeps the keys. -/
theorem bump_fst (m : List (String × Nat)) (k : String) :
    (bump m k).map Prod.fst =
      if (m.map Prod.fst).contains k then m.map Prod.fst
      else m.map Prod.fst ++ [k] := by
  induction m with
  | nil => simp [bump]
  | cons p rest ih =>
    rw [bump_cons]
    by_cases h : p.1 = k
    · have hb : (p.1 == k) = true := by simp [h]
      simp [hb, h]
    · have hb : (p.1 == k) = false := by simp [h]
      have hb' : (k == p.1) = false := by
        simp [show ¬ k = p.1 from fun hh => h hh.symm]
      rw [if_neg (by simp [hb]), List.map_cons, ih]
      simp only [List.map_cons, List.contains_cons, hb', Bool.false_or]
      rw [apply_ite (List.cons p.1)]
      simp

/-- Looking a key up after `bump`: the bumped key's count grew by one (from a
default of zero), other keys are untouched. -/
theorem lookupCount_bump (k j : String) (m : List (String × Nat)) :
    lookupCount (bump m k) j =
      if j = k then some ((lookupCount m k).getD 0 + 1) else lookupCount m j := by
  induction m with
  | nil =>
    by_cases h : j = k
    · simp [bump, lookupCount_cons, lookupCount, h]
    · have : ¬ k = j := fun hh => h hh.symm
      simp [bump, lookupCount_cons, lookupCount, h, this]
  | cons p rest ih =>
    rw [bump_cons]
    by_cases hpk : p.1 = k <;> by_cases hpj : p.1 = j
    · have hjk : j = k := by rw [← hpj, ← hpk]
      rw [if_pos (by simp [hpk])]
      simp [lookupCount_cons, hpj, hpk, hjk]
    · have hjk : ¬ j = k := fun h => hpj (by rw [hpk, ← h])
      have hkj : ¬ k = j := fun h => hjk h.symm
      rw [if_pos (by simp [hpk])]
      simp [lookupCount_cons, hpj, hpk, hjk, hkj]
    · have hjk : ¬ j = k := fun h => hpk (by rw [hpj, h])
      rw [if_neg (by simp [hpk])]
      simp [lookupCount_cons, hpj, hpk, hjk]
    · rw [if_neg (by simp [hpk])]
      by_cases hjk : j = k
      · subst hjk
        simp [lookupCount_cons, hpj, hpk, ih]
      · simp [lookupCount_cons, hpj, hpk, hjk, ih]

/-- Folding `bump` over observed values: each key's count grows by its number
of occurrences, and a key never observed keeps its old lookup. -/
theorem countBy_fold_lookup (vals : List String) :
    ∀ (m : List (String × Nat)) (j : String),
      lookupCount (vals.foldl bump m) j =
        if vals.contains j then some ((lookupCount m j).getD 0 + vals.count j)
        else lookupCount m j := by
  induction vals with
  | nil => intro m j; simp
  | cons v vs ih =>
    intro m j
    simp only [List.foldl_cons]
    rw [ih, lookupCount_bump]
    by_cases hjv : j = v <;> by_cases hvs : vs.contains j
    · subst hjv
      have hm : j ∈ vs := by simpa using hvs
      simp [hm, List.count_cons]
      omega
    · subst hjv
      have hm : j ∉ vs := by simpa using hvs
      have h0 : vs.count j = 0 := List.count_eq_zero.mpr hm
      simp [hm, List.count_cons, h0]
    · have hb : (j == v) = false := by simp [hjv]
      have hm : j ∈ vs := by simpa using hvs
      simp [hjv, hm, List.count_cons, hb]
    · have hb : (j == v) = false := by simp [hjv]
      have hm : j ∉ vs := by simpa using hvs
      simp [hjv, hm, List.count_cons, hb]

/-- `countBy` only looks at the selected values. -/
theorem countBy_eq_foldl (f : AttributedClick → String)
    (data : List AttributedClick) :
    countBy f data = (data.map f).foldl bump [] := by
  rw [countBy, List.foldl_map]

/-- The key sequence built by folding `bump` is `eraseDups.loop` of the
observed values (first-encountered order). -/
theorem countBy_fst_gen (vals : List String) :
    ∀ m : List (String × Nat),
      (vals.foldl bump m).map Prod.fst
        = List.eraseDups.loop vals (m.map Prod.fst).reverse := by
  induction vals with
  | nil => intro m; simp [List.eraseDups.loop]
  | cons v vs ih =>
    intro m
    simp only [List.foldl_cons]
    rw [ih]
    by_cases hc : (m.map Prod.fst).contains v = true
    · have hm : v ∈ (m.map Prod.fst).reverse := by
        rw [List.mem_reverse]; simpa using hc
      rw [bump_fst, if_pos hc]
      simp [List.eraseDups.loop, hm]
    · have hm : ¬ v ∈ (m.map Prod.fst).reverse := by
        rw [List.mem_reverse]; simpa using hc
      rw [bump_fst, if_neg hc]
      simp [List.eraseDups.loop, hm, List.reverse_append]

/-! ### The claims -/

/-- Claim C6: for any dimension selector — in particular the six dimensions
channel, gender, customer_type, send_country, device_info and platform_type —
the grouped-count aggregation over a filtered click list has as keys exactly
the distinct values present, in first-encountered order, and maps each key to
its occurrence count; a value never observed has no key. -/
theorem grouped_counts_spec (f : AttributedClick → String)
    (data : List AttributedClick) (k : String) :
    ((countBy f data).map Prod.fst = (data.map f).eraseDups)
  ∧ (lookupCount (countBy f data) k
      = if (data.map f).contains k then some ((data.map f).count k) else none) := by
  constructor
  · rw [countBy_eq_foldl, countBy_fst_gen, List.eraseDups]
    rfl
  · rw [countBy_eq_foldl, countBy_fold_lookup]
    by_cases hc : (data.map f).contains k = true <;> simp [hc, lookupCount]

/-- Claim C7: the age bucketing assigns each click to exactly one of the five
buckets (each click adds exactly one to the bucket totals, and exactly one of
the five fixed bucket names matches its age's bucket), boundary ages belong
to the lower bucket (25 to 18-25, 26 to 26-35, 56 to 56+), and each bucket's
displayed count is precisely the number of filtered clicks whose age falls in
it. -/
theorem age_bucket_partition :
    (∀ age : Nat, 18 ≤ age → age ≤ 65 →
        ((ageGroupsInit.map Prod.fst).filter (fun k => ageBucket age == k)).length = 1)
  ∧ ageBucket 25 = "18-25" ∧ ageBucket 26 = "26-35" ∧ ageBucket 56 = "56+"
  ∧ (∀ data : List AttributedClick, ((ageGroups data).map Prod.snd).sum = data.length)
  ∧ (∀ (data : List AttributedClick) (k : String),
        lookupCount (ageGroups data) k
          = (lookupCount ageGroupsInit k).map
              (fun v => v + (data.filter (fun c => ageBucket c.age == k)).length)) :=
  ⟨fun age _ _ => ageBucket_filter_one age, rfl, rfl, rfl,
   ageGroups_sum, fun data k => ageGroups_fold_lookup data ageGroupsInit k⟩

/-- Claim C10: for every filtered click list, the age-group mapping has
exactly the five keys 18-25, 26-35, 36-45, 46-55, 56+ in that fixed order,
and a bucket no click falls into keeps count 0. -/
theorem age_groups_fixed_keys :
    (∀ data : List AttributedClick,
        (ageGroups data).map Prod.fst = ["18-25", "26-35", "36-45", "46-55", "56+"])
  ∧ (∀ (data : List AttributedClick) (k : String),
        k ∈ ["18-25", "26-35", "36-45", "46-55", "56+"] →
        (∀ c ∈ data, ageBucket c.age ≠ k) →
        lookupCount (ageGroups data) k = some 0) := by
  refine ⟨ageGroups_fst, fun data k hk hnone => ?_⟩
  have hfold := ageGroups_fold_lookup data ageGroupsInit k
  have hfilter : (data.filter (fun c => ageBucket c.age == k)) = [] := by
    rw [List.filter_eq_nil_iff]
    intro c hc
    simpa using hnone c hc
  rw [show ageGroups data = data.foldl (fun m c => bumpKey m (ageBucket c.age)) ageGroupsInit from rfl,
    hfold, hfilter]
  simp at hk
  rcases hk with rfl | rfl | rfl | rfl | rfl <;> rfl

/-- Claim C8: re-selecting the active (dimension, value) drill-down clears it
back to the no-drill-down baseline (filters untouched), selecting a different
pair activates it, and changing any broad filter criterion clears the
drill-down. -/
theorem drilldown_state (s : AppState) (category value : String)
    (fname : FilterField) (v : String) :
    (s.chartFilter = some (category, value) →
        handleBarClick s category value = { s with chartFilter := none })
  ∧ (s.chartFilter ≠ some (category, value) →
        handleBarClick s category value
          = { s with chartFilter := some (category, value) })
  ∧ (handleFilterChange s fname v).chartFilter = none := by
  refine ⟨fun h => ?_, fun h => ?_, rfl⟩
  · simp [handleBarClick, h]
  · simp [handleBarClick, h]

/-! ### Transaction filtering (C5) -/

/-- Membership in the index.tsx transaction filter. -/
theorem mem_filteredTransactions (t : Transaction) (trans : List Transaction)
    (fc : List AttributedClick) :
    t ∈ filteredTransactions trans fc
      ↔ t ∈ trans ∧ ∃ c ∈ fc, c.user_id = t.user_id := by
  simp [filteredTransactions, List.mem_filter, List.mem_map, eq_comm]

/-- Membership in the part_000 transaction filter (with its empty-list
early-outs). -/
theorem mem_filteredTransactionsB (t : Transaction) (trans : List Transaction)
    (fc : List AttributedClick) :
    t ∈ filteredTransactionsB fc trans
      ↔ t ∈ trans ∧ ∃ c ∈ fc, c.user_id = t.user_id := by
  unfold filteredTransactionsB
  by_cases h1 : fc.length = 0
  · have hfc : fc = [] := List.length_eq_zero.mp h1
    subst hfc
    simp
  · by_cases h2 : trans.length = 0
    · have htr : trans = [] := List.length_eq_zero.mp h2
      subst htr
      simp
    · rw [if_neg (by simp [h1, h2])]
      simp [List.mem_filter, List.mem_map, eq_comm]

/-- Claim C5: a transaction is in the filtered transaction output iff its
user_id equals the user_id of some click in the filtered click output;
transactions carry no date or categorical filter of their own (the criteria
only act through the filtered clicks).  Both the index.tsx and the part_000
filter engines satisfy this. -/
theorem transaction_filter_transitive (t : Transaction) (trans : List Transaction)
    (f : Filters) (fB : FiltersB) (clicks : List AttributedClick) :
    (t ∈ filteredTransactions trans (filteredClickData f clicks)
        ↔ t ∈ trans ∧ ∃ c ∈ filteredClickData f clicks, c.user_id = t.user_id)
  ∧ (t ∈ filteredTransactionsB (filteredData fB clicks) trans
        ↔ t ∈ trans ∧ ∃ c ∈ filteredData fB clicks, c.user_id = t.user_id) :=
  ⟨mem_filteredTransactions t trans _, mem_filteredTransactionsB t trans _⟩

/-! ### Invalid date bounds (C3) -/

/-- A sample attributed click. -/
def cexClick : AttributedClick :=
  ⟨"u1", "Male", 30, "UK", "India", "active", "iOS", "app", "Push", 100⟩

/-- A filter state whose start-date input failed to parse (`new Date` gave an
invalid date), with no categorical constraint. -/
def invalidDateFilters : Filters := ⟨none, some 1000000, "all", "all", "all"⟩

/-- Claim C3 counterexample: with an unparseable start date the claim predicts
the date dimension admits every click, but the code's `NaN` comparison is
false, so the click is dropped and the filtered output is empty. -/
theorem invalid_date_excludes_cex :
    filteredClickData invalidDateFilters [cexClick] = []
      ∧ cexClick ∉ filteredClickData invalidDateFilters [cexClick] := by
  refine ⟨rfl, ?_⟩
  intro h
  simp [filteredClickData, clickPasses, geNaN, invalidDateFilters, List.mem_filter] at h

/-- Claim C3 amended: click filtering with an invalid/unparseable date bound
never throws (it is a total function), but instead of admitting every click it
admits none — every date comparison against the invalid bound is false, so
the filtered click list is empty. -/
theorem invalid_date_filter_amended (f : Filters) (clicks : List AttributedClick)
    (h : f.startDate = none ∨ f.endDate = none) :
    filteredClickData f clicks = [] := by
  rw [filteredClickData, List.filter_eq_nil_iff]
  intro c _
  rcases h with h | h <;> simp [clickPasses, h, geNaN, leNaN]

/-- Claim C3 amended, witnessed at the sample click and invalid filter. -/
theorem invalid_date_filter_amended_witness :
    (invalidDateFilters.startDate = none ∨ invalidDateFilters.endDate = none)
      ∧ filteredClickData invalidDateFilters [cexClick] = [] :=
  ⟨Or.inl rfl, invalid_date_filter_amended invalidDateFilters [cexClick] (Or.inl rfl)⟩

/-! ### Conversion conservation (C4) -/

/-- `rand` never goes below its lower bound when the draw is nonnegative. -/
theorem rand_lower (q : ℚ) (hq : 0 ≤ q) (lo hi : Int) (hlohi : lo ≤ hi) :
    lo ≤ rand q lo hi := by
  unfold rand
  have hspan : (0 : ℚ) ≤ (hi : ℚ) - (lo : ℚ) + 1 := by
    have : (lo : ℚ) ≤ (hi : ℚ) := by exact_mod_cast hlohi
    linarith
  have hfloor : (0 : Int) ≤ ⌊q * ((hi : ℚ) - (lo : ℚ) + 1)⌋ := by
    apply Int.le_floor.mpr
    push_cast
    exact mul_nonneg hq hspan
  omega

/-- The simulated transactions' user ids are a subsequence of the clicks'
user ids: at most one transaction per click, in click order. -/
theorem simulate_uid_sublist (r : Nat → ℚ) :
    ∀ (clicks : List AttributedClick) (i : Nat),
      ((simulateConversions r clicks i).map Transaction.user_id).Sublist
        (clicks.map AttributedClick.user_id) := by
  intro clicks
  induction clicks with
  | nil => intro i; simp [simulateConversions]
  | cons c rest ih =>
    intro i
    rw [simulateConversions]
    by_cases hlt : r i < (2 : ℚ) / 5
    · rw [if_pos hlt]
      simpa using List.Sublist.cons₂ c.user_id (ih (i + 3))
    · rw [if_neg hlt]
      exact (ih (i + 1)).trans (List.sublist_cons_self _ _)

/-- Claim C4: the simulator emits at most one transaction per attributed
click (so no more transactions than clicks, and every transaction's user_id
is among the clicks'), and each transaction's timestamp is strictly after its
source click's — given that the injected random draws are nonnegative, as
`Math.random`'s are. -/
theorem conversion_conservation (clicks : List AttributedClick) (r : Nat → ℚ)
    (i : Nat) (hr : ∀ j, 0 ≤ r j) :
    (simulateConversions r clicks i).length ≤ clicks.length
  ∧ ((simulateConversions r clicks i).map Transaction.user_id).Sublist
      (clicks.map AttributedClick.user_id)
  ∧ ∀ t ∈ simulateConversions r clicks i,
      ∃ c ∈ clicks, c.user_id = t.user_id ∧ c.timestamp < t.timestamp := by
  refine ⟨?_, simulate_uid_sublist r clicks i, ?_⟩
  · have h := (simulate_uid_sublist r clicks i).length_le
    simpa using h
  · induction clicks generalizing i with
    | nil => intro t ht; simp [simulateConversions] at ht
    | cons c rest ih =>
      intro t ht
      rw [simulateConversions] at ht
      by_cases hlt : r i < (2 : ℚ) / 5
      · rw [if_pos hlt] at ht
        rcases List.mem_cons.mp ht with rfl | ht'
        · refine ⟨c, List.mem_cons_self c rest, rfl, ?_⟩
          have hlo := rand_lower (r (i + 2)) (hr (i + 2))
            (1000 * 60) (1000 * 60 * 60 * 24) (by omega)
          simp only []
          omega
        · obtain ⟨c', hc', h1, h2⟩ := ih (i + 3) t ht'
          exact ⟨c', List.mem_cons_of_mem c hc', h1, h2⟩
      · rw [if_neg hlt] at ht
        obtain ⟨c', hc', h1, h2⟩ := ih (i + 1) t ht
        exact ⟨c', List.mem_cons_of_mem c hc', h1, h2⟩

/-- A one-click dataset for the C4 witness. -/
def witClick : AttributedClick :=
  ⟨"u9", "Other", 40, "Canada", "Ghana", "dormant", "Android", "website", "Slider", 0⟩

/-- Claim C4 witnessed on a concrete click list and the all-zero (always
converting) random source. -/
theorem conversion_conservation_witness :
    (simulateConversions (fun _ => 0) [witClick] 0).length ≤ [witClick].length
  ∧ ((simulateConversions (fun _ => 0) [witClick] 0).map Transaction.user_id).Sublist
      ([witClick].map AttributedClick.user_id)
  ∧ ∀ t ∈ simulateConversions (fun _ => 0) [witClick] 0,
      ∃ c ∈ [witClick], c.user_id = t.user_id ∧ c.timestamp < t.timestamp :=
  conversion_conservation [witClick] (fun _ => 0) 0 (fun _ => le_refl 0)

/-! ### Determinism (C9) -/

/-- The simulator's output depends only on the values its random source
yields. -/
theorem simulateConversions_ext (r₁ r₂ : Nat → ℚ) (h : ∀ j, r₁ j = r₂ j) :
    ∀ (clicks : List AttributedClick) (i : Nat),
      simulateConversions r₁ clicks i = simulateConversions r₂ clicks i := by
  intro clicks
  induction clicks with
  | nil => intro i; rfl
  | cons c rest ih =>
    intro i
    rw [simulateConversions, simulateConversions, h i, h (i + 1), h (i + 2), ih, ih]

/-- Claim C9: on identical events, users and seeded random draws, attribution
followed by conversion simulation produces identical output across runs —
the pipeline is deterministic, with all randomness confined to the injected
source. -/
theorem pipeline_deterministic (events₁ events₂ : List Event)
    (users₁ users₂ : List User) (r₁ r₂ : Nat → ℚ)
    (he : events₁ = events₂) (hu : users₁ = users₂) (hr : ∀ i, r₁ i = r₂ i) :
    runPipeline events₁ users₁ r₁ = runPipeline events₂ users₂ r₂ := by
  subst he
  subst hu
  show (attributeClicks events₁ users₁,
      simulateConversions r₁ (attributeClicks events₁ users₁) 0)
    = (attributeClicks events₁ users₁,
      simulateConversions r₂ (attributeClicks events₁ users₁) 0)
  rw [simulateConversions_ext r₁ r₂ hr]

/-- A tiny dataset for the C9 witness. -/
def detEvents : List Event := [⟨"e0", "u1", 10, "push_clicked"⟩]

/-- Its user list. -/
def detUsers : List User :=
  [⟨"u1", "Male", 22, "UK", "India", "active", "iOS", "app"⟩]

/-- Claim C9 witnessed: two pointwise-equal random sources drive two runs on
the same dataset to the same output. -/
theorem pipeline_deterministic_witness :
    runPipeline detEvents detUsers (fun _ => 0)
      = runPipeline detEvents detUsers (fun i => 0 * (i : ℚ)) :=
  pipeline_deterministic detEvents detEvents detUsers detUsers
    (fun _ => 0) (fun i => 0 * (i : ℚ)) rfl rfl (fun i => by ring)

/-! ### First-touch attribution (C1) -/

/-- Unfold a click-map lookup one entry. -/
theorem lookupClick_cons (x : String × AttributedClick) (l : ClickMap) (k : String) :
    lookupClick (x :: l) k = if x.1 = k then some x.2 else lookupClick l k := by
  simp only [lookupClick, List.find?_cons]
  by_cases h : x.1 = k
  · have hb : (x.1 == k) = true := by simp [h]
    simp [hb, h]
  · have hb : (x.1 == k) = false := by simp [h]
    simp [hb, h]

/-- A lookup succeeds exactly when the map has the key. -/
theorem lookupClick_isSome (m : ClickMap) (k : String) :
    (lookupClick m k).isSome = hasKey m k := by
  rw [Bool.eq_iff_iff]
  simp [lookupClick, hasKey, List.find?_isSome, List.any_eq_true]

/-- Appending a single fresh binding only affects its own key. -/
theorem lookupClick_append_single (m : ClickMap) (k' : String)
    (v : AttributedClick) (k : String) :
    lookupClick (m ++ [(k', v)]) k
      = (lookupClick m k).or (if k' = k then some v else none) := by
  simp only [lookupClick, List.find?_append]
  cases hm : m.find? (fun p => p.1 == k)
  · simp only [Option.map_none, Option.none_or]
    by_cases h : k' = k
    · have hb : (k' == k) = true := by simp [h]
      simp [List.find?_cons, hb, h]
    · have hb : (k' == k) = false := by simp [h]
      simp [List.find?_cons, hb, h]
  · simp

/-- What one fold of the attribution walk leaves under each key: the key's
prior binding if any, else the first event of the walked list for that key,
attributed through its user record if one resolves. -/
theorem attr_fold_lookup (users : List User) (l : List Event) :
    ∀ (m : ClickMap) (k : String),
      lookupClick (l.foldl (attributeStep users) m) k =
        (lookupClick m k).or
          (match l.find? (fun e => e.user_id == k), findUser users k with
           | some e, some u => some (mkClick u e)
           | _, _ => none) := by
  induction l with
  | nil =>
    intro m k
    cases h : lookupClick m k <;> simp [h]
  | cons e t ih =>
    intro m k
    simp only [List.foldl_cons]
    rw [ih]
    by_cases hek : e.user_id = k
    · have hpe : (e.user_id == k) = true := by simp [hek]
      simp only [List.find?_cons, hpe]
      by_cases hk : hasKey m e.user_id = true
      · have hstep : attributeStep users m e = m := by
          simp [attributeStep, hk]
        rw [hstep]
        have hsome : (lookupClick m k).isSome = true := by
          rw [lookupClick_isSome, ← hek]; exact hk
        obtain ⟨v, hv⟩ := Option.isSome_iff_exists.mp hsome
        rw [hv]
        simp
      · have hnone : lookupClick m k = none := by
          have h2 : (lookupClick m k).isSome = false := by
            rw [lookupClick_isSome, ← hek]
            exact Bool.eq_false_iff.mpr hk
          exact Option.not_isSome_iff_eq_none.mp (by simp [h2])
        rw [hnone, Option.none_or]
        rcases hu : findUser users e.user_id with _ | u
        · have hstep : attributeStep users m e = m := by
            simp [attributeStep, hk, hu]
          rw [hstep, hnone, Option.none_or]
          rw [hek] at hu
          rcases ht : t.find? (fun e' => e'.user_id == k) with _ | e' <;> simp [hu]
        · have hstep : attributeStep users m e = m ++ [(e.user_id, mkClick u e)] := by
            simp [attributeStep, hk, hu]
          rw [hstep, lookupClick_append_single, hnone, Option.none_or, if_pos hek]
          rw [hek] at hu
          simp [hu]
    · have hpe : (e.user_id == k) = false := by simp [hek]
      simp only [List.find?_cons, hpe]
      have hstep : lookupClick (attributeStep users m e) k = lookupClick m k := by
        unfold attributeStep
        by_cases hk : hasKey m e.user_id = true
        · rw [if_pos hk]
        · rw [if_neg (by simp [hk])]
          rcases hu : findUser users e.user_id with _ | u
          · rfl
          · rw [lookupClick_append_single, if_neg hek]
            cases lookupClick m k <;> rfl
      rw [hstep]

/-- The attribution walk keeps its keys duplicate-free. -/
theorem attr_fold_keys_nodup (users : List User) (l : List Event) :
    ∀ m : ClickMap, (m.map Prod.fst).Nodup →
      ((l.foldl (attributeStep users) m).map Prod.fst).Nodup := by
  induction l with
  | nil => intro m hm; exact hm
  | cons e t ih =>
    intro m hm
    simp only [List.foldl_cons]
    apply ih
    unfold attributeStep
    by_cases hk : hasKey m e.user_id = true
    · rw [if_pos hk]; exact hm
    · rw [if_neg (by simp [hk])]
      rcases hu : findUser users e.user_id with _ | u
      · exact hm
      · have hnotin : e.user_id ∉ m.map Prod.fst := by
          intro hin
          apply hk
          simp only [hasKey, List.any_eq_true]
          obtain ⟨p, hp, hpk⟩ := List.mem_map.mp hin
          exact ⟨p, hp, by simp [hpk]⟩
        simp only [List.map_append, List.map_cons, List.map_nil]
        rw [List.nodup_append]
        exact ⟨hm, List.nodup_singleton _, by simpa using hnotin⟩

/-- Every binding of the attribution walk carries its own key as user id. -/
theorem attr_fold_inv (users : List User) (l : List Event) :
    ∀ m : ClickMap, (∀ p ∈ m, p.2.user_id = p.1) →
      ∀ p ∈ l.foldl (attributeStep users) m, p.2.user_id = p.1 := by
  induction l with
  | nil => intro m hm; exact hm
  | cons e t ih =>
    intro m hm
    simp only [List.foldl_cons]
    apply ih
    unfold attributeStep
    by_cases hk : hasKey m e.user_id = true
    · rw [if_pos hk]; exact hm
    · rw [if_neg (by simp [hk])]
      rcases hu : findUser users e.user_id with _ | u
      · exact hm
      · intro p hp
        rcases List.mem_append.mp hp with hp' | hp'
        · exact hm p hp'
        · have : p = (e.user_id, mkClick u e) := by simpa using hp'
          subst this
          have := List.find?_some hu
          simp only [mkClick]
          exact by simpa using this

/-- In a key-unique click map, a lookup returns exactly the stored pair. -/
theorem lookupClick_eq_some_iff (m : ClickMap) (hn : (m.map Prod.fst).Nodup)
    (k : String) (c : AttributedClick) :
    lookupClick m k = some c ↔ (k, c) ∈ m := by
  induction m with
  | nil => simp [lookupClick]
  | cons p rest ih =>
    rw [lookupClick_cons]
    simp only [List.map_cons, List.nodup_cons] at hn
    by_cases h : p.1 = k
    · subst h
      simp only [if_pos rfl, List.mem_cons]
      constructor
      · rintro hc
        left
        have : c = p.2 := by simpa using hc.symm
        subst this
        rfl
      · rintro (hc | hc)
        · have hc2 : c = p.2 := by rw [← hc]
          simp [hc2]
        · exfalso
          exact hn.1 (List.mem_map.mpr ⟨(p.1, c), hc, rfl⟩)
    · rw [if_neg h, ih hn.2]
      simp only [List.mem_cons]
      constructor
      · intro hc; right; exact hc
      · rintro (hc | hc)
        · exfalso; apply h; rw [← hc]
        · exact hc

/-- The sorted click stream is pairwise ordered by timestamp. -/
theorem sortedClickEvents_pairwise (events : List Event) :
    (sortedClickEvents events).Pairwise
      (fun a b : Event => a.timestamp ≤ b.timestamp) := by
  have h := @List.sorted_mergeSort Event
    (fun a b : Event => a.timestamp ≤ b.timestamp)
    (fun a b c hab hbc => by
      simp only [decide_eq_true_eq] at hab hbc ⊢
      omega)
    (fun a b => by
      simp only [Bool.or_eq_true, decide_eq_true_eq]
      omega)
    (events.filter isClickEvent)
  exact h.imp (fun hab => by simpa using hab)

/-- In a timestamp-sorted list, the first event `find?` returns has a
timestamp no larger than any other event satisfying the predicate. -/
theorem find?_first_min {l : List Event}
    (hs : l.Pairwise (fun a b : Event => a.timestamp ≤ b.timestamp))
    {p : Event → Bool} {e : Event} (hf : l.find? p = some e) :
    ∀ x ∈ l, p x = true → e.timestamp ≤ x.timestamp := by
  induction l with
  | nil => simp at hf
  | cons a t ih =>
    rcases List.pairwise_cons.mp hs with ⟨ha, ht⟩
    rw [List.find?_cons] at hf
    cases hpa : p a
    · simp only [hpa] at hf
      intro x hx hpx
      rcases List.mem_cons.mp hx with rfl | hx'
      · rw [hpa] at hpx; exact absurd hpx (by simp)
      · exact ih ht hf x hx' hpx
    · simp only [hpa] at hf
      have : a = e := by simpa using hf
      subst this
      intro x hx _
      rcases List.mem_cons.mp hx with rfl | hx'
      · exact le_refl _
      · exact ha x hx'

/-- The attribution map binds each key to its first sorted click event,
attributed through its user record, when the user resolves. -/
theorem attributeMap_lookup (events : List Event) (users : List User) (k : String) :
    lookupClick (attributeMap events users) k =
      match (sortedClickEvents events).find? (fun e => e.user_id == k),
          findUser users k with
      | some e, some u => some (mkClick u e)
      | _, _ => none := by
  unfold attributeMap
  rw [attr_fold_lookup]
  simp [lookupClick]

/-- The attribution map's keys are duplicate-free. -/
theorem attributeMap_keys_nodup (events : List Event) (users : List User) :
    ((attributeMap events users).map Prod.fst).Nodup :=
  attr_fold_keys_nodup users (sortedClickEvents events) [] (by simp)

/-- Each binding of the attribution map carries its key as user id. -/
theorem attributeMap_inv (events : List Event) (users : List User) :
    ∀ p ∈ attributeMap events users, p.2.user_id = p.1 :=
  attr_fold_inv users (sortedClickEvents events) [] (by simp)

/-- The attributed clicks' user ids are the attribution map's keys. -/
theorem attributeClicks_map_uid (events : List Event) (users : List User) :
    (attributeClicks events users).map AttributedClick.user_id
      = (attributeMap events users).map Prod.fst := by
  unfold attributeClicks
  rw [List.map_map]
  exact List.map_congr_left (fun p hp => attributeMap_inv events users p hp)

/-- First-touch uniqueness: no user id repeats among attributed clicks. -/
theorem attributeClicks_uid_nodup (events : List Event) (users : List User) :
    ((attributeClicks events users).map AttributedClick.user_id).Nodup := by
  rw [attributeClicks_map_uid]
  exact attributeMap_keys_nodup events users

/-- `hasKey` is key membership. -/
theorem hasKey_iff_mem (m : ClickMap) (k : String) :
    hasKey m k = true ↔ k ∈ m.map Prod.fst := by
  simp [hasKey, List.any_eq_true, List.mem_map, beq_iff_eq]

/-- In a key-unique, key-consistent click map, filtering the values on one
user id keeps exactly one entry when the key is bound, none otherwise. -/
theorem assoc_filter_length (k : String) (m : ClickMap) :
    (m.map Prod.fst).Nodup → (∀ p ∈ m, p.2.user_id = p.1) →
      ((m.map Prod.snd).filter (fun c => c.user_id == k)).length
        = if (lookupClick m k).isSome then 1 else 0 := by
  induction m with
  | nil => intro _ _; simp [lookupClick]
  | cons p rest ih =>
    intro hn hinv
    simp only [List.map_cons, List.nodup_cons] at hn
    have hpuid : p.2.user_id = p.1 := hinv p (List.mem_cons_self p rest)
    rw [List.map_cons, List.filter_cons, lookupClick_cons]
    have htail := ih hn.2 (fun q hq => hinv q (List.mem_cons_of_mem p hq))
    by_cases h : p.1 = k
    · have hb : (p.2.user_id == k) = true := by simp [hpuid, h]
      have hrest : lookupClick rest k = none := by
        have h2 : (lookupClick rest k).isSome = false := by
          rw [lookupClick_isSome]
          rcases hhk : hasKey rest k with _ | _
          · rfl
          · exact absurd (h ▸ (hasKey_iff_mem rest k).mp hhk) hn.1
        exact Option.not_isSome_iff_eq_none.mp (by simp [h2])
      rw [hrest] at htail
      simp only [Option.isSome_none, Bool.false_eq_true, if_neg, if_false] at htail
      simp [hb, h, htail]
    · have hb : (p.2.user_id == k) = false := by simp [hpuid, h]
      simp [hb, h, htail]

/-- The sorted click stream has an entry for a user id exactly when some raw
event is a click event of that user. -/
theorem sorted_find_isSome (events : List Event) (k : String) :
    ((sortedClickEvents events).find? (fun e => e.user_id == k)).isSome
      = events.any (fun e => isClickEvent e && e.user_id == k) := by
  rw [Bool.eq_iff_iff]
  simp only [List.find?_isSome, sortedClickEvents, List.mem_mergeSort,
    List.mem_filter, List.any_eq_true, Bool.and_eq_true, beq_iff_eq]
  constructor
  · rintro ⟨e, ⟨he, hc⟩, hk⟩; exact ⟨e, he, hc, hk⟩
  · rintro ⟨e, he, hc, hk⟩; exact ⟨e, ⟨he, hc⟩, hk⟩

/-- Claim C1: attribution emits exactly one AttributedClick per user that has
a click event and resolves to a user record (an unresolvable click is skipped
silently, yielding nothing); and every emitted click carries the minimum
timestamp among that user's click events, with its channel derived (strip
`_clicked`, capitalize) from an earliest such event. -/
theorem first_touch_attribution (events : List Event) (users : List User) (k : String) :
    (((attributeClicks events users).filter (fun c => c.user_id == k)).length
        = if (events.any fun e => isClickEvent e && e.user_id == k)
              && (findUser users k).isSome then 1 else 0)
  ∧ ∀ c ∈ attributeClicks events users, c.user_id = k →
      (∀ e ∈ events, isClickEvent e = true → e.user_id = k →
          c.timestamp ≤ e.timestamp)
      ∧ ∃ e ∈ events, isClickEvent e = true ∧ e.user_id = k
          ∧ e.timestamp = c.timestamp ∧ c.channel = deriveChannel e.event_name := by
  constructor
  · rw [show attributeClicks events users = (attributeMap events users).map Prod.snd
        from rfl,
      assoc_filter_length k _ (attributeMap_keys_nodup events users)
        (attributeMap_inv events users),
      attributeMap_lookup, ← sorted_find_isSome events k]
    rcases hf : (sortedClickEvents events).find? (fun e => e.user_id == k) with _ | e <;>
      rcases hu : findUser users k with _ | u <;>
        simp only [hf, hu] <;> simp
  · intro c hc hck
    obtain ⟨p, hp, hpc⟩ := List.mem_map.mp hc
    have hpk : p.1 = k := by
      rw [← attributeMap_inv events users p hp, hpc, hck]
    have hmem : (k, c) ∈ attributeMap events users := by
      have hpkc : p = (k, c) := by
        rcases p with ⟨a, b⟩
        simp only at hpc hpk
        rw [hpc, hpk]
      rwa [hpkc] at hp
    have hlook : lookupClick (attributeMap events users) k = some c :=
      (lookupClick_eq_some_iff _ (attributeMap_keys_nodup events users) k c).mpr hmem
    rw [attributeMap_lookup] at hlook
    rcases hf : (sortedClickEvents events).find? (fun e => e.user_id == k) with _ | e <;>
      rcases hu : findUser users k with _ | u <;> rw [hf, hu] at hlook <;>
        simp only [] at hlook
    · exact absurd hlook (by simp)
    · exact absurd hlook (by simp)
    · exact absurd hlook (by simp)
    have hmk : mkClick u e = c := by simpa using hlook
    have hep := List.find?_some hf
    have hek : e.user_id = k := by simpa using hep
    have hmem_sorted : e ∈ sortedClickEvents events := List.mem_of_find?_eq_some hf
    have hmem_filter : e ∈ events.filter isClickEvent := by
      simpa [sortedClickEvents, List.mem_mergeSort] using hmem_sorted
    have he_events : e ∈ events := (List.mem_filter.mp hmem_filter).1
    have he_click : isClickEvent e = true := (List.mem_filter.mp hmem_filter).2
    constructor
    · intro e' he' hclick' huid'
      have he'_sorted : e' ∈ sortedClickEvents events := by
        simp only [sortedClickEvents, List.mem_mergeSort, List.mem_filter]
        exact ⟨he', hclick'⟩
      have hmin := find?_first_min (sortedClickEvents_pairwise events) hf e'
        he'_sorted (by simp [huid'])
      rw [← hmk]
      simpa [mkClick] using hmin
    · exact ⟨e, he_events, he_click, hek, by rw [← hmk]; rfl, by rw [← hmk]; rfl⟩

/-! ### Rate bounds (C2) -/

/-- Through the whole pipeline, filtered transactions never outnumber
filtered clicks: click user ids are unique, the simulator emits at most one
transaction per click, and transaction filtering keeps only user ids present
among the filtered clicks. -/
theorem filteredTransactions_le (events : List Event) (users : List User)
    (r : Nat → ℚ) (f : Filters) :
    (filteredTransactions (simulateConversions r (attributeClicks events users) 0)
        (filteredClickData f (attributeClicks events users))).length
      ≤ (filteredClickData f (attributeClicks events users)).length := by
  have h1 : ((simulateConversions r (attributeClicks events users) 0).map
      Transaction.user_id).Nodup :=
    (simulate_uid_sublist r (attributeClicks events users) 0).nodup
      (attributeClicks_uid_nodup events users)
  have h2 : (filteredTransactions (simulateConversions r (attributeClicks events users) 0)
      (filteredClickData f (attributeClicks events users))).Sublist
      (simulateConversions r (attributeClicks events users) 0) :=
    List.filter_sublist _
  have h4 : ((filteredTransactions (simulateConversions r (attributeClicks events users) 0)
      (filteredClickData f (attributeClicks events users))).map
        Transaction.user_id).Nodup :=
    (h2.map Transaction.user_id).nodup h1
  have h5 : ((filteredTransactions (simulateConversions r (attributeClicks events users) 0)
      (filteredClickData f (attributeClicks events users))).map Transaction.user_id)
      ⊆ ((filteredClickData f (attributeClicks events users)).map
        AttributedClick.user_id) := by
    intro x hx
    obtain ⟨t, ht, rfl⟩ := List.mem_map.mp hx
    have hcont := (List.mem_filter.mp ht).2
    simpa using hcont
  have h6 := (List.subperm_of_subset h4 h5).length_le
  simpa using h6

/-- Bounds and zero cases of the conversion rate, given no more conversions
than clicks. -/
theorem conversionRate_props (fc : List AttributedClick) (ft : List Transaction)
    (h : ft.length ≤ fc.length) :
    0 ≤ conversionRate fc ft ∧ conversionRate fc ft ≤ 100
      ∧ (conversionRate fc ft = 0 ↔ ft.length = 0 ∨ fc.length = 0) := by
  unfold conversionRate
  by_cases hfc : 0 < fc.length
  · rw [if_pos hfc]
    have hd : (0 : ℚ) < (fc.length : ℚ) := by exact_mod_cast hfc
    refine ⟨?_, ?_, ?_, ?_⟩
    · positivity
    · have hle : (ft.length : ℚ) ≤ (fc.length : ℚ) := by exact_mod_cast h
      have hq : (ft.length : ℚ) / (fc.length : ℚ) ≤ 1 := (div_le_one hd).mpr hle
      calc (ft.length : ℚ) / (fc.length : ℚ) * 100
          ≤ 1 * 100 := by
            apply mul_le_mul_of_nonneg_right hq
            norm_num
        _ = 100 := by norm_num
    · intro h0
      left
      have hq : (ft.length : ℚ) / (fc.length : ℚ) = 0 := by
        rcases mul_eq_zero.mp h0 with hq | hq
        · exact hq
        · norm_num at hq
      rcases div_eq_zero_iff.mp hq with hn | hn
      · exact_mod_cast hn
      · exact absurd hn (by positivity)
    · rintro (h0 | h0)
      · simp [h0]
      · omega
  · rw [if_neg hfc]
    have h0 : fc.length = 0 := by omega
    exact ⟨le_refl 0, by norm_num, fun _ => Or.inr h0, fun _ => rfl⟩

/-- Bounds and zero cases of the click-through rate (note: no upper bound —
clicking users need not appear among `_received` events). -/
theorem clickThroughRate_props (reached clicks : Nat) :
    0 ≤ clickThroughRate reached clicks
      ∧ (clickThroughRate reached clicks = 0 ↔ clicks = 0 ∨ reached = 0) := by
  unfold clickThroughRate
  by_cases hr : 0 < reached
  · rw [if_pos hr]
    have hd : (0 : ℚ) < (reached : ℚ) := by exact_mod_cast hr
    refine ⟨by positivity, ?_, ?_⟩
    · intro h0
      left
      have hq : (clicks : ℚ) / (reached : ℚ) = 0 := by
        rcases mul_eq_zero.mp h0 with hq | hq
        · exact hq
        · norm_num at hq
      rcases div_eq_zero_iff.mp hq with hn | hn
      · exact_mod_cast hn
      · exact absurd hn (by positivity)
    · rintro (h0 | h0)
      · simp [h0]
      · omega
  · rw [if_neg hr]
    have h0 : reached = 0 := by omega
    exact ⟨le_refl 0, fun _ => Or.inr h0, fun _ => rfl⟩

/-- Claim C2 amended: over the pipeline, the conversion rate lies in [0, 100]
and the click-through rate is nonnegative (it has no upper bound, see the
counterexample); each rate is 0 exactly when its numerator or its denominator
is 0 — not only when its denominator is. -/
theorem rates_amended (events : List Event) (users : List User) (r : Nat → ℚ)
    (f : Filters) (fB : FiltersB) :
    0 ≤ conversionRate (filteredClickData f (attributeClicks events users))
        (filteredTransactions (simulateConversions r (attributeClicks events users) 0)
          (filteredClickData f (attributeClicks events users)))
  ∧ conversionRate (filteredClickData f (attributeClicks events users))
        (filteredTransactions (simulateConversions r (attributeClicks events users) 0)
          (filteredClickData f (attributeClicks events users))) ≤ 100
  ∧ (conversionRate (filteredClickData f (attributeClicks events users))
        (filteredTransactions (simulateConversions r (attributeClicks events users) 0)
          (filteredClickData f (attributeClicks events users))) = 0
      ↔ (filteredTransactions (simulateConversions r (attributeClicks events users) 0)
          (filteredClickData f (attributeClicks events users))).length = 0
        ∨ (filteredClickData f (attributeClicks events users)).length = 0)
  ∧ 0 ≤ clickThroughRate (totalReached events)
        ((filteredData fB (attributeClicks events users)).length)
  ∧ (clickThroughRate (totalReached events)
        ((filteredData fB (attributeClicks events users)).length) = 0
      ↔ (filteredData fB (attributeClicks events users)).length = 0
        ∨ totalReached events = 0) := by
  obtain ⟨hc1, hc2, hc3⟩ :=
    conversionRate_props _ _ (filteredTransactions_le events users r f)
  obtain ⟨ht1, ht2⟩ :=
    clickThroughRate_props (totalReached events)
      ((filteredData fB (attributeClicks events users)).length)
  exact ⟨hc1, hc2, hc3, ht1, ht2⟩

/-- The users of the C2 counterexample dataset. -/
def c2Users : List User :=
  [⟨"u1", "Male", 20, "UK", "India", "active", "iOS", "app"⟩,
   ⟨"u2", "Female", 30, "UK", "India", "active", "iOS", "app"⟩,
   ⟨"u3", "Other", 40, "UK", "India", "active", "iOS", "app"⟩]

/-- Its events: two users click, only a third distinct user received. -/
def c2Events : List Event :=
  [⟨"e1", "u1", 0, "push_clicked"⟩,
   ⟨"e2", "u2", 0, "push_clicked"⟩,
   ⟨"e3", "u3", 0, "push_received"⟩]

/-- A random source that never converts (0.5 is not below 0.4). -/
def c2R : Nat → ℚ := fun _ => 1 / 2

/-- An index.tsx filter state admitting everything in range. -/
def c2Filters : Filters := ⟨some 0, some 10, "all", "all", "all"⟩

/-- A part_000 filter state admitting everything. -/
def c2FiltersB : FiltersB := ⟨"all", "all"⟩

/-- Claim C2 counterexample: on this dataset the click-through rate is 200
(outside [0, 100]), and the conversion rate is 0 while its denominator, the
filtered click count, is 2 — refuting both the [0, 100] bound and the
"zero exactly when the denominator is zero" equivalence. -/
theorem rates_cex :
    clickThroughRate (totalReached c2Events)
        ((filteredData c2FiltersB (attributeClicks c2Events c2Users)).length) = 200
  ∧ (filteredClickData c2Filters (attributeClicks c2Events c2Users)).length = 2
  ∧ conversionRate (filteredClickData c2Filters (attributeClicks c2Events c2Users))
        (filteredTransactions (simulateConversions c2R (attributeClicks c2Events c2Users) 0)
          (filteredClickData c2Filters (attributeClicks c2Events c2Users))) = 0 := by
  have hsort : sortedClickEvents c2Events = c2Events.filter isClickEvent :=
    List.mergeSort_of_sorted (by decide)
  have hclicks : attributeClicks c2Events c2Users
      = ((c2Events.filter isClickEvent).foldl (attributeStep c2Users) []).map Prod.snd := by
    rw [show attributeClicks c2Events c2Users
        = (attributeMap c2Events c2Users).map Prod.snd from rfl]
    unfold attributeMap
    rw [hsort]
  have hlenB : (filteredData c2FiltersB (attributeClicks c2Events c2Users)).length = 2 := by
    rw [hclicks]; decide
  have hlenA : (filteredClickData c2Filters (attributeClicks c2Events c2Users)).length = 2 := by
    rw [hclicks]; decide
  have hreach : totalReached c2Events = 1 := by decide
  have hnoconv : ∀ (clicks : List AttributedClick) (i : Nat),
      simulateConversions c2R clicks i = [] := by
    intro clicks
    induction clicks with
    | nil => intro i; rfl
    | cons c rest ih =>
      intro i
      rw [simulateConversions, if_neg (by norm_num [c2R])]
      exact ih (i + 1)
  refine ⟨?_, ?_, ?_⟩
  · rw [hreach, hlenB]
    unfold clickThroughRate
    rw [if_pos (by norm_num : 0 < 1)]
    norm_num
  · exact hlenA
  · rw [hnoconv]
    rw [show filteredTransactions ([] : List Transaction)
        (filteredClickData c2Filters (attributeClicks c2Events c2Users)) = [] from rfl]
    unfold conversionRate
    rw [hlenA]
    norm_num

end CRM
